import Mathlib

/-!
Shallow embedding of arch/x86/kernel/cpu/sgx/main.c: the SGX Enclave Page
Cache (EPC) free-pool allocator, the LRU engine, the reclaimer, the boot-time
sanitizer and the OOM victim selection, together with proofs about their
specification.

Modelling conventions:
* C doubly linked lists become Lean lists kept in list order (head = first
  entry); list_add_tail appends, list_move prepends to the destination head,
  list_del removes the node.
* The packed page descriptor word (physical address | section index | flag
  bits) is split into fields of a structure; the address is the identity of a
  page and all addresses in a state are assumed distinct.
* Hardware primitives (EREMOVE, EWB, ETRACK), reference counting
  (kref_get_unless_zero) and other collaborators outside main.c are oracles:
  Bool- or Nat-valued functions supplied as arguments.
* Unless said otherwise the model is the CONFIG_CGROUP_SGX_EPC=n build
  (global LRU only); the page keeps its epc_cg back-pointer field and the
  free paths keep the uncharge assignments guarded by the cgroup ifdef,
  because those lines are part of what the claims talk about.
* Locking disappears: every function is a sequential state transformer; a
  spinlocked critical section becomes one atomic Lean step.
-/

namespace Sgx

/-- Linux errno values used by main.c (defined in uapi headers, not under
src/): EBUSY = 16, ENOMEM = 12, ERESTARTSYS = 512. -/
def EBUSY : Int := 16

def ENOMEM : Int := 12

def ERESTARTSYS : Int := 512

/-- From main.c line 40. -/
def SGX_MAX_NR_TO_RECLAIM : Nat := 32

/-- Modelled from the spec: SGX_NR_TO_SCAN is defined in sgx.h, which is not
under src/; spec section 6 (Tunables) fixes it to 16. -/
def SGX_NR_TO_SCAN : Nat := 16

/-- Modelled from the spec: PAGE_SHIFT comes from generic kernel headers not
under src/; EPC pages are ordinary 4096-byte pages, so PAGE_SHIFT = 12. -/
def PAGE_SHIFT : Nat := 12

/-- One EPC page record (struct sgx_epc_page). The C desc word packs the
physical address, the owning section index and the flag bits
SGX_EPC_PAGE_ENCLAVE, SGX_EPC_PAGE_VERSION_ARRAY, SGX_EPC_PAGE_RECLAIMABLE
and SGX_EPC_PAGE_RECLAIM_IN_PROGRESS; here they are separate fields.
owner abstracts the owner pointer (an id), epc_cg the optional charge-group
back-pointer. kzalloc zeroes the record, hence the defaults. -/
structure EpcPage where
  addr : Nat
  sectionIndex : Nat
  enclave : Bool := false
  versionArray : Bool := false
  reclaimable : Bool := false
  reclaimInProgress : Bool := false
  owner : Nat := 0
  epc_cg : Option Nat := none
deriving DecidableEq, Repr

/-- One EPC section (struct sgx_epc_section): the free list page_list, the
unsanitized_page_list and the free counter free_cnt. -/
structure EpcSection where
  page_list : List EpcPage := []
  unsanitized_page_list : List EpcPage := []
  free_cnt : Nat := 0
deriving DecidableEq, Repr

/-- One LRU scope (struct sgx_epc_lru): reclaimable and unreclaimable lists. -/
structure EpcLru where
  reclaimable : List EpcPage := []
  unreclaimable : List EpcPage := []
deriving DecidableEq, Repr

/-- The process-lifetime state main.c mutates: the section table
sgx_epc_sections (as a list, index = section index) and the global LRU
sgx_global_lru. -/
structure KState where
  sections : List EpcSection
  lru : EpcLru
deriving DecidableEq, Repr

/-- The section-table part of sgx_setup_epc_section (main.c lines 909-941,
success path): nr_pages = size >> PAGE_SHIFT records are allocated zeroed,
each desc set to (addr + (i << PAGE_SHIFT)) | index, and appended to the
unsanitized_page_list; page_list stays empty and free_cnt is set to
nr_pages. The memremap of the va window is outside the model. -/
def sgx_setup_epc_section (addr size index : Nat) : EpcSection :=
  let nr_pages := size >>> PAGE_SHIFT
  { page_list := []
    unsanitized_page_list :=
      (List.range nr_pages).map
        (fun i => { addr := addr + (i <<< PAGE_SHIFT), sectionIndex := index })
    free_cnt := nr_pages }

/-- The while loop of sgx_sanitize_section (main.c lines 628-646) as a
recursion on the unsanitized list, which loses its head every iteration.
er gives the truth of (__eremove(page) == 0) per page address;
kthread_should_stop is modelled as never requesting a stop. Arguments and
results are (page_list, unsanitized_page_list, secs_list): on EREMOVE
success the page is list_move-d to the head of page_list, on failure it is
list_move_tail-ed to the tail of the function-local secs_list. -/
def sanitize_loop (er : Nat → Bool) :
    List EpcPage → List EpcPage → List EpcPage →
    List EpcPage × List EpcPage × List EpcPage
  | pl, [], sl => (pl, [], sl)
  | pl, p :: rest, sl =>
    if er p.addr then sanitize_loop er (p :: pl) rest sl
    else sanitize_loop er pl rest (sl ++ [p])

/-- sgx_sanitize_section (main.c lines 622-647). The local secs_list (third
component of the loop result) goes out of scope when the function returns:
the pages parked there leave every section list. -/
def sgx_sanitize_section (er : Nat → Bool) (s : EpcSection) : EpcSection :=
  let r := sanitize_loop er s.page_list s.unsanitized_page_list []
  { s with page_list := r.1, unsanitized_page_list := r.2.1 }

/-- The initialization part of ksgxswapd (main.c lines 684-697): a first
sanitization pass over every section, then a second pass, after which a
WARN fires for any section whose unsanitized_page_list is still nonempty.
er1 and er2 give the EREMOVE outcomes during pass 1 and pass 2. Returns the
final section table and whether the WARN fired. -/
def ksgxswapd_init (er1 er2 : Nat → Bool) (secs : List EpcSection) :
    List EpcSection × Bool :=
  let s1 := secs.map (sgx_sanitize_section er1)
  let s2 := s1.map (sgx_sanitize_section er2)
  (s2, s2.any (fun s => !s.unsanitized_page_list.isEmpty))

/-- list_del of the page with address a from a list (addresses are unique). -/
def list_del (a : Nat) (l : List EpcPage) : List EpcPage :=
  l.filter (fun q => q.addr != a)

/-- sgx_drop_epc_page (main.c lines 90-111). Operates on the global LRU
(sgx_lru of a page without charge group). Returns the C return value
together with the LRU and the page descriptor after the call: -EBUSY leaves
both untouched; otherwise the page is list_del-ed and desc loses
SGX_EPC_PAGE_RECLAIM_FLAGS = RECLAIMABLE | RECLAIM_IN_PROGRESS (the mask is
defined in sgx.h, not under src/, as the or of those two bits). -/
def sgx_drop_epc_page (lru : EpcLru) (p : EpcPage) : Int × EpcLru × EpcPage :=
  if p.reclaimable && p.reclaimInProgress then (-EBUSY, lru, p)
  else
    (0,
     { reclaimable := list_del p.addr lru.reclaimable
       unreclaimable := list_del p.addr lru.unreclaimable },
     { p with reclaimable := false, reclaimInProgress := false })

/-- __sgx_free_epc_page (main.c lines 846-861): uncharge clears the
charge-group back-pointer (the cgroup-build lines 851-854), then under the
section lock the page is list_add_tail-ed to the free list of its section
and free_cnt is incremented. A section index outside the table would be
undefined behaviour in C; the model leaves the table unchanged there. -/
def __sgx_free_epc_page (secs : List EpcSection) (p : EpcPage) :
    List EpcSection × EpcPage :=
  let q := { p with epc_cg := none }
  match secs[p.sectionIndex]? with
  | none => (secs, q)
  | some s =>
    (secs.set p.sectionIndex
       { s with page_list := s.page_list ++ [q], free_cnt := s.free_cnt + 1 },
     q)

/-- sgx_free_epc_page (main.c lines 869-886): __eremove first; if it fails
(WARN_ONCE path) the function returns with no state change at all, else
__sgx_free_epc_page runs. er gives the truth of (__eremove(page) == 0).
Result is the section table and the final page descriptor. -/
def sgx_free_epc_page (er : Nat → Bool) (secs : List EpcSection)
    (p : EpcPage) : List EpcSection × EpcPage :=
  if er p.addr then __sgx_free_epc_page secs p
  else (secs, p)

/-- __sgx_alloc_epc_page_from_section (main.c lines 729-741): pop the head
of the section free list (list_del_init) and decrement free_cnt, or return
NULL when the free list is empty. -/
def __sgx_alloc_epc_page_from_section (s : EpcSection) :
    Option EpcPage × EpcSection :=
  match s.page_list with
  | [] => (none, s)
  | p :: ps => (some p, { s with page_list := ps, free_cnt := s.free_cnt - 1 })

/-- __sgx_alloc_epc_page (main.c lines 753-770): walk the section table in
index order, first hit wins; ERR_PTR(-ENOMEM), modelled as none, on total
miss. -/
def __sgx_alloc_epc_page : List EpcSection → Option EpcPage × List EpcSection
  | [] => (none, [])
  | s :: rest =>
    match __sgx_alloc_epc_page_from_section s with
    | (some p, s1) => (some p, s1 :: rest)
    | (none, _) =>
      let r := __sgx_alloc_epc_page rest
      (r.1, s :: r.2)

/-- sgx_can_reclaim (main.c lines 660-667, CONFIG_CGROUP_SGX_EPC=n branch):
the global reclaimable list is nonempty. -/
def sgx_can_reclaim (st : KState) : Bool :=
  !st.lru.reclaimable.isEmpty

/-- The oracles standing for the collaborators of main.c outside src/:
krefGet is kref_get_unless_zero on the owning enclave of a page, ageOk the
result of sgx_reclaimer_age (true: the page may be reclaimed, i.e. it is
not young or its enclave is dead-or-OOM), backingOk the success of
sgx_encl_get_backing, and signal the value of signal_pending(current) at
the k-th iteration of the sgx_alloc_epc_page loop. -/
structure Oracle where
  krefGet : Nat → Bool
  ageOk : Nat → Bool
  backingOk : Nat → Bool
  signal : Nat → Bool

/-- Result of sgx_isolate_epc_pages: the final *nr_to_scan, the remaining
reclaimable list, the dst list, and the pages that were list_del_init-ed
off the LRU because their owner reference could not be taken (in C those
pages survive off-list; the model keeps them here so their final descriptor
can be stated). -/
structure IsoOut where
  nr_to_scan : Nat
  reclaimable : List EpcPage
  dst : List EpcPage
  dropped : List EpcPage
deriving DecidableEq, Repr

/-- The for loop of sgx_isolate_epc_pages (main.c lines 360-382), a
recursion on *nr_to_scan, which the for-update clause decrements after
every iteration (also after the WARN_ON_ONCE continue and after the
kref failure branch); the loop breaks, without a decrement, when the
reclaimable list is empty. A candidate without the ENCLAVE tag is left at
the head (continue); one whose enclave reference can be taken gets
RECLAIM_IN_PROGRESS and is list_move_tail-ed to dst; otherwise it loses
RECLAIMABLE and is list_del_init-ed. -/
def isolate_loop (krefGet : Nat → Bool) :
    Nat → List EpcPage → List EpcPage → List EpcPage → IsoOut
  | 0, recl, dst, dropped => ⟨0, recl, dst, dropped⟩
  | Nat.succ n, recl, dst, dropped =>
    match recl with
    | [] => ⟨n + 1, recl, dst, dropped⟩
    | p :: rest =>
      if !p.enclave then
        isolate_loop krefGet n (p :: rest) dst dropped
      else if krefGet p.addr then
        isolate_loop krefGet n rest
          (dst ++ [{ p with reclaimInProgress := true }]) dropped
      else
        isolate_loop krefGet n rest dst
          (dropped ++ [{ p with reclaimable := false }])

/-- sgx_isolate_epc_pages (main.c lines 353-384) on an LRU scope. -/
def sgx_isolate_epc_pages (krefGet : Nat → Bool) (lru : EpcLru)
    (nr_to_scan : Nat) (dst : List EpcPage) : EpcLru × IsoOut :=
  let r := isolate_loop krefGet nr_to_scan lru.reclaimable dst []
  ({ lru with reclaimable := r.reclaimable }, r)

/-- Result of the first list_for_each_entry_safe pass of
sgx_reclaim_epc_pages: the pages kept in iso (accepted for writeback, in
order), the LRU reclaimable list after the skipped pages were
list_move_tail-ed back, and the addresses whose enclave reference was
kref_put. -/
structure Phase1Out where
  accepted : List EpcPage
  reclaimable : List EpcPage
  krefPuts : List Nat
deriving DecidableEq, Repr

/-- The first pass of sgx_reclaim_epc_pages (main.c lines 426-453) over the
iso list: skip (goto skip) when i == SGX_MAX_NR_TO_RECLAIM or the page is
young and ignore_age is unset, or when sgx_encl_get_backing fails;
otherwise i grows and the page stays in iso (the SGX_ENCL_PAGE_RECLAIMED
marker set on the external enclave page record is outside the model). A
skipped page loses RECLAIM_IN_PROGRESS, returns to the tail of the
(global) LRU reclaimable list and its enclave reference is released. -/
def reclaim_phase1 (O : Oracle) (ignore_age : Bool) :
    List EpcPage → Nat → List EpcPage → List Nat → Phase1Out
  | [], _, recl, puts => ⟨[], recl, puts⟩
  | p :: rest, i, recl, puts =>
    if i = SGX_MAX_NR_TO_RECLAIM || (!ignore_age && !O.ageOk p.addr) then
      reclaim_phase1 O ignore_age rest i
        (recl ++ [{ p with reclaimInProgress := false }]) (puts ++ [p.addr])
    else if !O.backingOk p.addr then
      reclaim_phase1 O ignore_age rest i
        (recl ++ [{ p with reclaimInProgress := false }]) (puts ++ [p.addr])
    else
      let r := reclaim_phase1 O ignore_age rest (i + 1) recl puts
      ⟨p :: r.accepted, r.reclaimable, r.krefPuts⟩

/-- The per-page tail of the final pass of sgx_reclaim_epc_pages (main.c
lines 464-478): clear SGX_EPC_PAGE_RECLAIM_FLAGS, uncharge (clear epc_cg,
the cgroup-build lines 468-471), then under the section lock
list_move_tail the page onto the free list of its section and increment
free_cnt. -/
def reclaim_free_one (secs : List EpcSection) (p : EpcPage) :
    List EpcSection :=
  let q := { p with reclaimable := false, reclaimInProgress := false,
                    epc_cg := none }
  match secs[p.sectionIndex]? with
  | none => secs
  | some s =>
    secs.set p.sectionIndex
      { s with page_list := s.page_list ++ [q], free_cnt := s.free_cnt + 1 }

/-- The final pass of sgx_reclaim_epc_pages (main.c lines 458-479): i
restarts at 0 and counts one per remaining iso page; each page goes through
sgx_reclaimer_write and sgx_encl_put_backing (external effects), its
enclave reference is kref_put, and reclaim_free_one applies. Returns
(i, section table, kref_put addresses). -/
def reclaim_phase3 :
    List EpcPage → Nat → List EpcSection → List Nat →
    Nat × List EpcSection × List Nat
  | [], i, secs, puts => (i, secs, puts)
  | p :: rest, i, secs, puts =>
    reclaim_phase3 rest (i + 1) (reclaim_free_one secs p) (puts ++ [p.addr])

/-- sgx_reclaim_epc_pages (main.c lines 399-484, CONFIG_CGROUP_SGX_EPC=n
build: only the global LRU is isolated from). Returns the reclaimed count,
the new state, and the addresses whose enclave reference was released.
The sgx_reclaimer_block pass (lines 455-456) touches no modelled state. -/
def sgx_reclaim_epc_pages (O : Oracle) (nr_to_scan : Nat)
    (ignore_age : Bool) (st : KState) : Nat × KState × List Nat :=
  let iso := sgx_isolate_epc_pages O.krefGet st.lru nr_to_scan []
  if iso.2.dst.isEmpty then (0, { st with lru := iso.1 }, [])
  else
    let ph1 := reclaim_phase1 O ignore_age iso.2.dst 0 iso.1.reclaimable []
    let r3 := reclaim_phase3 ph1.accepted 0 st.sections ph1.krefPuts
    (r3.1,
     { sections := r3.2.1
       lru := { iso.1 with reclaimable := ph1.reclaimable } },
     r3.2.2)

/-- Return value of sgx_alloc_epc_page: the page (with owner bound) or an
ERR_PTR code. -/
inductive AllocResult where
  | ok (p : EpcPage)
  | err (code : Int)
deriving DecidableEq, Repr

/-- sgx_alloc_epc_page (main.c lines 789-838, CONFIG_CGROUP_SGX_EPC=n
build: no charge), with a fuel bound on the infinite for loop (none =
fuel ran out with the loop still going) and iter numbering the iterations
for the signal_pending oracle. On a free-pool hit the popped page gets
entry->owner = owner; otherwise -ENOMEM when nothing is reclaimable,
-EBUSY when reclaim is not allowed, -ERESTARTSYS on a pending signal, else
sgx_reclaim_epc_pages(SGX_NR_TO_SCAN, false, NULL) runs and the loop
retries. The ksgxswapd wake-up (lines 834-835) has no modelled effect. -/
def sgx_alloc_epc_page (O : Oracle) (owner : Nat) (reclaim : Bool) :
    Nat → Nat → KState → Option (AllocResult × KState)
  | 0, _, _ => none
  | Nat.succ fuel, iter, st =>
    match __sgx_alloc_epc_page st.sections with
    | (some p, secs1) =>
      some (.ok { p with owner := owner }, { st with sections := secs1 })
    | (none, secs1) =>
      let st1 : KState := { st with sections := secs1 }
      if !sgx_can_reclaim st1 then some (.err (-ENOMEM), st1)
      else if !reclaim then some (.err (-EBUSY), st1)
      else if O.signal iter then some (.err (-ERESTARTSYS), st1)
      else
        let r := sgx_reclaim_epc_pages O SGX_NR_TO_SCAN false st1
        sgx_alloc_epc_page O owner reclaim fuel (iter + 1) r.2.1

/-- Modelled from the spec: SGX_NOT_TRACKED is the distinguished ENCLS
status code (sgx_arch.h, not under src/) that EWB returns when the tracking
epoch is stale; its numeric value (11 in the architecture) only matters as
being distinct from 0. -/
def SGX_NOT_TRACKED : Nat := 11

/-- Observable events of one sgx_encl_ewb run: an __sgx_encl_ewb
invocation, an __etrack on the SECS page, the on_each_cpu_mask no-op IPI
broadcast with its CPU set, and the final sgx_free_va_slot or the binding
of the va slot into the enclave page descriptor. -/
inductive EwbEvent where
  | ewbCall
  | etrackCall
  | ipiBroadcast (cpus : List Nat)
  | vaSlotFreed
  | vaSlotBound
deriving DecidableEq, Repr

/-- sgx_encl_ewb_cpumask (main.c lines 219-246): clear the mask, then or in
mm_cpumask of every mm on the enclave mm_list (an mm whose mmget_not_zero
fails contributes nothing; mms lists the cpumasks of the live mms). -/
def sgx_encl_ewb_cpumask (mms : List (List Nat)) : List Nat :=
  mms.foldl (fun acc m => acc ∪ m) []

/-- sgx_encl_ewb (main.c lines 248-299) as a trace of events plus the final
__sgx_encl_ewb result. r1, r2, r3 are the results of the up to three
__sgx_encl_ewb calls, etrackRet the __etrack result (it is only warned
about and never alters the control flow), mms the live mm cpumasks. The va
slot allocation bookkeeping (lines 260-265) precedes the trace. -/
def sgx_encl_ewb (r1 r2 r3 etrackRet : Nat) (mms : List (List Nat)) :
    List EwbEvent × Nat :=
  let tail := fun (ret : Nat) =>
    if ret ≠ 0 then [EwbEvent.vaSlotFreed] else [EwbEvent.vaSlotBound]
  let e0 := [EwbEvent.ewbCall]
  if r1 = SGX_NOT_TRACKED then
    let _ := etrackRet
    let e1 := e0 ++ [EwbEvent.etrackCall, EwbEvent.ewbCall]
    if r2 = SGX_NOT_TRACKED then
      let e2 := e1 ++
        [EwbEvent.ipiBroadcast (sgx_encl_ewb_cpumask mms), EwbEvent.ewbCall]
      (e2 ++ tail r3, r3)
    else (e1 ++ tail r2, r2)
  else (e0 ++ tail r1, r1)

/-- The enclave fields sgx_oom_encl reads (struct sgx_encl is in encl.h,
outside src/; the fields are taken as the spec and main.c use them): the
SGX_ENCL_DEAD, SGX_ENCL_OOM and SGX_ENCL_CREATED flag bits
(SGX_ENCL_DEAD_OR_OOM = DEAD or OOM), the live mm list (ids), and the
enclave base and size. -/
structure Encl where
  dead : Bool
  oomFlag : Bool
  created : Bool
  mms : List Nat
  base : Nat
  size : Nat
deriving DecidableEq, Repr

/-- Observable events of the OOM path: the atomic_fetch_or of SGX_ENCL_OOM,
a sgx_epc_oom_zap of one mm over an address range, sgx_encl_destroy, the
kref_put of the victim reference, and the delegation to
sgx_virt_epc_oom. -/
inductive OomEvent where
  | oomFlagSet
  | zap (mm start stop : Nat)
  | destroyed
  | krefPut
  | virtOom (addr : Nat)
deriving DecidableEq, Repr

/-- sgx_oom_encl (main.c lines 541-588): set SGX_ENCL_OOM under the enclave
lock (atomic_fetch_or returns the old flags); if the old flags already had
DEAD_OR_OOM or lacked CREATED, jump to out; otherwise zap
[base, base + size) in every live mm (the mm_list_version retry loop is
collapsed to one stable walk) and sgx_encl_destroy under the lock; finally
kref_put the reference taken by victim selection. -/
def sgx_oom_encl (e : Encl) : List OomEvent :=
  [OomEvent.oomFlagSet] ++
  (if (e.dead || e.oomFlag) || !e.created then []
   else e.mms.map (fun m => OomEvent.zap m e.base (e.base + e.size)) ++
        [OomEvent.destroyed]) ++
  [OomEvent.krefPut]

/-- sgx_oom_get_victim (main.c lines 500-514): walk the unreclaimable list;
each scanned page is list_del_init-ed first, then sgx_oom_get_ref (the
getRef oracle, dispatching on the owner type) is tried; the first page
whose reference is taken is returned, pages that failed stay off every
list. -/
def sgx_oom_get_victim (getRef : Nat → Bool) :
    List EpcPage → Option EpcPage × List EpcPage
  | [] => (none, [])
  | p :: rest =>
    if getRef p.addr then (some p, rest)
    else sgx_oom_get_victim getRef rest

/-- sgx_epc_oom (main.c lines 601-620): pick a victim under the LRU lock;
false when there is none; otherwise dispatch on the owner-type bits of the
victim descriptor — ENCLAVE goes through sgx_oom_encl_page to the enclave
of the owning enclave page, VERSION_ARRAY straight to sgx_oom_encl of the
owner, anything else to sgx_virt_epc_oom. enclOf resolves the owner id to
its enclave in both enclave-owned cases. -/
def sgx_epc_oom (getRef : Nat → Bool) (enclOf : Nat → Encl) (lru : EpcLru) :
    Bool × EpcLru × List OomEvent :=
  match sgx_oom_get_victim getRef lru.unreclaimable with
  | (none, rest) => (false, { lru with unreclaimable := rest }, [])
  | (some v, rest) =>
    let evs :=
      if v.enclave then sgx_oom_encl (enclOf v.owner)
      else if v.versionArray then sgx_oom_encl (enclOf v.owner)
      else [OomEvent.virtOom v.addr]
    (true, { lru with unreclaimable := rest }, evs)

/-! Helper lemmas shared by the claim theorems. -/

lemma mem_list_del {a : Nat} {l : List EpcPage} {q : EpcPage}
    (hq : q ∈ list_del a l) : q ∈ l ∧ q.addr ≠ a := by
  have h := List.mem_filter.mp hq
  exact ⟨h.1, by simpa using h.2⟩

/-- C7: sgx_drop_epc_page returns -EBUSY exactly when the page has both
RECLAIMABLE and RECLAIM_IN_PROGRESS set, and in that case leaves the LRU
and the page descriptor untouched; in every other case it returns 0,
detaches the page from both LRU lists and clears both reclaim flags. -/
theorem sgx_drop_epc_page_spec (lru : EpcLru) (p : EpcPage) :
    (((sgx_drop_epc_page lru p).1 = -EBUSY) ↔
      (p.reclaimable && p.reclaimInProgress) = true) ∧
    ((p.reclaimable && p.reclaimInProgress) = true →
      sgx_drop_epc_page lru p = (-EBUSY, lru, p)) ∧
    ((p.reclaimable && p.reclaimInProgress) = false →
      sgx_drop_epc_page lru p =
        (0,
         { reclaimable := list_del p.addr lru.reclaimable
           unreclaimable := list_del p.addr lru.unreclaimable },
         { p with reclaimable := false, reclaimInProgress := false }) ∧
      (∀ q ∈ (sgx_drop_epc_page lru p).2.1.reclaimable, q.addr ≠ p.addr) ∧
      (∀ q ∈ (sgx_drop_epc_page lru p).2.1.unreclaimable, q.addr ≠ p.addr)) := by
  cases hb : p.reclaimable && p.reclaimInProgress with
  | true =>
    refine ⟨?_, fun _ => by simp [sgx_drop_epc_page, hb], fun h => ?_⟩
    · simp [sgx_drop_epc_page, hb]
    · exact Bool.noConfusion h
  | false =>
    have he : sgx_drop_epc_page lru p =
        (0,
         { reclaimable := list_del p.addr lru.reclaimable
           unreclaimable := list_del p.addr lru.unreclaimable },
         { p with reclaimable := false, reclaimInProgress := false }) := by
      simp [sgx_drop_epc_page, hb]
    refine ⟨⟨fun h1 => ?_, fun h => ?_⟩, fun h => ?_, fun _ => ?_⟩
    · exfalso
      rw [he] at h1
      norm_num [EBUSY] at h1
    · exact Bool.noConfusion h
    · exact Bool.noConfusion h
    · refine ⟨he, fun q hq => ?_, fun q hq => ?_⟩
      · rw [he] at hq
        exact (mem_list_del hq).2
      · rw [he] at hq
        exact (mem_list_del hq).2

/-- Witness for sgx_drop_epc_page_spec: a reclaimable page that is not in
reclaim progress is dropped with flags cleared and the LRU emptied. -/
theorem sgx_drop_epc_page_spec_witness :
    sgx_drop_epc_page
        { reclaimable := [⟨4096, 0, true, false, true, false, 7, none⟩]
          unreclaimable := [] }
        ⟨4096, 0, true, false, true, false, 7, none⟩ =
      (0, { reclaimable := [], unreclaimable := [] },
       ⟨4096, 0, true, false, false, false, 7, none⟩) :=
  ((sgx_drop_epc_page_spec
      { reclaimable := [⟨4096, 0, true, false, true, false, 7, none⟩]
        unreclaimable := [] }
      ⟨4096, 0, true, false, true, false, 7, none⟩).2.2 (by decide)).1

/-- C9: when EREMOVE fails, sgx_free_epc_page returns with the section
table unchanged (the page is not inserted into any free list and no free
counter moves) and the page descriptor unchanged, in particular the
charge-group back-pointer is not released. -/
theorem sgx_free_epc_page_eremove_fail (er : Nat → Bool)
    (secs : List EpcSection) (p : EpcPage) (h : er p.addr = false) :
    sgx_free_epc_page er secs p = (secs, p) ∧
    (sgx_free_epc_page er secs p).2.epc_cg = p.epc_cg := by
  constructor
  · simp [sgx_free_epc_page, h]
  · simp [sgx_free_epc_page, h]

/-- Witness for sgx_free_epc_page_eremove_fail at a page carrying a charge
group back-pointer and a failing EREMOVE oracle. -/
theorem sgx_free_epc_page_eremove_fail_witness :
    sgx_free_epc_page (fun _ => false)
        [{ page_list := [], unsanitized_page_list := [], free_cnt := 0 }]
        ⟨4096, 0, true, false, false, false, 3, some 5⟩ =
      ([{ page_list := [], unsanitized_page_list := [], free_cnt := 0 }],
       ⟨4096, 0, true, false, false, false, 3, some 5⟩) :=
  (sgx_free_epc_page_eremove_fail (fun _ => false)
      [{ page_list := [], unsanitized_page_list := [], free_cnt := 0 }]
      ⟨4096, 0, true, false, false, false, 3, some 5⟩ rfl).1

/-- C2 (code-bug evidence): one section set up with a single page; EREMOVE
fails for it during the first ksgxswapd pass and would succeed during the
second. After both passes the page sits on neither the free list nor the
unsanitized list: it was parked on the function-local secs_list of
sgx_sanitize_section, which is dropped on return, so the second pass has
nothing to retry; the fatal-inconsistency WARN does not fire either, since
the unsanitized list is empty. The claim (and the comment above the second
round in ksgxswapd) instead expects the page to be retried and to reach the
free list. -/
theorem ksgxswapd_init_loses_eremove_failures :
    ksgxswapd_init (fun _ => false) (fun _ => true)
        [sgx_setup_epc_section 0 4096 0] =
      ([{ page_list := [], unsanitized_page_list := [], free_cnt := 1 }],
       false) := by
  decide

/-- C1 (counterexample): immediately after sgx_setup_epc_section the free
counter is already the total page count while the free list is still empty
(every page is on the unsanitized list), so the claimed equality between
the free counter and the free-list length fails at initialization. -/
theorem free_cnt_ne_free_list_at_init :
    ¬ ((sgx_setup_epc_section 0 4096 0).free_cnt =
        (sgx_setup_epc_section 0 4096 0).page_list.length) := by
  decide

lemma sanitize_loop_conserves (er : Nat → Bool) :
    ∀ (ul pl sl : List EpcPage),
      (sanitize_loop er pl ul sl).1.length +
        (sanitize_loop er pl ul sl).2.1.length +
        (sanitize_loop er pl ul sl).2.2.length =
      pl.length + ul.length + sl.length := by
  intro ul
  induction ul with
  | nil => intro pl sl; simp [sanitize_loop]
  | cons p rest ih =>
    intro pl sl
    by_cases h : er p.addr
    · have hstep : sanitize_loop er pl (p :: rest) sl =
          sanitize_loop er (p :: pl) rest sl := by
        simp [sanitize_loop, h]
      rw [hstep]
      have := ih (p :: pl) sl
      simp only [List.length_cons] at this ⊢
      omega
    · have hstep : sanitize_loop er pl (p :: rest) sl =
          sanitize_loop er pl rest (sl ++ [p]) := by
        simp [sanitize_loop, h]
      rw [hstep]
      have := ih pl (sl ++ [p])
      simp only [List.length_append, List.length_cons,
        List.length_nil] at this ⊢
      omega

lemma sanitize_loop_all_ok (er : Nat → Bool) (h : ∀ a, er a = true) :
    ∀ (ul pl sl : List EpcPage),
      sanitize_loop er pl ul sl = (ul.reverse ++ pl, [], sl) := by
  intro ul
  induction ul with
  | nil => intro pl sl; simp [sanitize_loop]
  | cons p rest ih =>
    intro pl sl
    simp only [sanitize_loop, h p.addr, if_true]
    rw [ih (p :: pl) sl]
    simp

lemma __sgx_alloc_preserves_inv :
    ∀ (secs : List EpcSection),
      (∀ t ∈ secs, t.free_cnt = t.page_list.length) →
      ∀ t ∈ (__sgx_alloc_epc_page secs).2, t.free_cnt = t.page_list.length := by
  intro secs
  induction secs with
  | nil => intro _ t ht; simp [__sgx_alloc_epc_page] at ht
  | cons s rest ih =>
    intro hinv t ht
    cases hpl : s.page_list with
    | nil =>
      simp only [__sgx_alloc_epc_page, __sgx_alloc_epc_page_from_section,
        hpl] at ht
      rcases List.mem_cons.mp ht with h1 | h1
      · rw [h1]; exact hinv s (List.mem_cons_self s rest)
      · exact ih (fun u hu => hinv u (List.mem_cons_of_mem s hu)) t h1
    | cons p ps =>
      simp only [__sgx_alloc_epc_page, __sgx_alloc_epc_page_from_section,
        hpl] at ht
      rcases List.mem_cons.mp ht with h1 | h1
      · subst h1
        have := hinv s (List.mem_cons_self s rest)
        simp only [hpl, List.length_cons] at this
        simp [this]
      · exact hinv t (List.mem_cons_of_mem s h1)

lemma mem_of_lookup {secs : List EpcSection} {i : Nat} {s : EpcSection}
    (h : secs[i]? = some s) : s ∈ secs := by
  obtain ⟨hi, rfl⟩ := List.getElem?_eq_some.mp h
  exact List.getElem_mem hi

lemma mem_set_preserves_inv {secs : List EpcSection} {i : Nat}
    {b : EpcSection}
    (hinv : ∀ t ∈ secs, t.free_cnt = t.page_list.length)
    (hb : b.free_cnt = b.page_list.length) :
    ∀ t ∈ secs.set i b, t.free_cnt = t.page_list.length := by
  intro t ht
  rcases List.mem_or_eq_of_mem_set ht with h1 | h1
  · exact hinv t h1
  · subst h1; exact hb

lemma __sgx_free_preserves_inv (secs : List EpcSection) (p : EpcPage)
    (hinv : ∀ t ∈ secs, t.free_cnt = t.page_list.length) :
    ∀ t ∈ (__sgx_free_epc_page secs p).1,
      t.free_cnt = t.page_list.length := by
  cases hget : secs[p.sectionIndex]? with
  | none =>
    have he : (__sgx_free_epc_page secs p).1 = secs := by
      simp [__sgx_free_epc_page, hget]
    rw [he]; exact hinv
  | some s =>
    have he : (__sgx_free_epc_page secs p).1 =
        secs.set p.sectionIndex
          { s with
            page_list := s.page_list ++ [{ p with epc_cg := none }]
            free_cnt := s.free_cnt + 1 } := by
      simp [__sgx_free_epc_page, hget]
    rw [he]
    refine mem_set_preserves_inv hinv ?_
    have hs := hinv s (mem_of_lookup hget)
    simp [hs]

lemma reclaim_free_one_preserves_inv (secs : List EpcSection) (p : EpcPage)
    (hinv : ∀ t ∈ secs, t.free_cnt = t.page_list.length) :
    ∀ t ∈ reclaim_free_one secs p, t.free_cnt = t.page_list.length := by
  cases hget : secs[p.sectionIndex]? with
  | none =>
    have he : reclaim_free_one secs p = secs := by
      simp [reclaim_free_one, hget]
    rw [he]; exact hinv
  | some s =>
    have he : reclaim_free_one secs p =
        secs.set p.sectionIndex
          { s with
            page_list := s.page_list ++
              [{ p with reclaimable := false, reclaimInProgress := false,
                        epc_cg := none }]
            free_cnt := s.free_cnt + 1 } := by
      simp [reclaim_free_one, hget]
    rw [he]
    refine mem_set_preserves_inv hinv ?_
    have hs := hinv s (mem_of_lookup hget)
    simp [hs]

lemma reclaim_phase3_preserves_inv :
    ∀ (l : List EpcPage) (i : Nat) (secs : List EpcSection)
      (puts : List Nat),
      (∀ t ∈ secs, t.free_cnt = t.page_list.length) →
      ∀ t ∈ (reclaim_phase3 l i secs puts).2.1,
        t.free_cnt = t.page_list.length := by
  intro l
  induction l with
  | nil => intro i secs puts hinv; simpa [reclaim_phase3] using hinv
  | cons p rest ih =>
    intro i secs puts hinv
    simp only [reclaim_phase3]
    exact ih (i + 1) (reclaim_free_one secs p) (puts ++ [p.addr])
      (reclaim_free_one_preserves_inv secs p hinv)

lemma sgx_reclaim_preserves_inv (O : Oracle) (n : Nat) (ia : Bool)
    (st : KState)
    (hinv : ∀ t ∈ st.sections, t.free_cnt = t.page_list.length) :
    ∀ t ∈ (sgx_reclaim_epc_pages O n ia st).2.1.sections,
      t.free_cnt = t.page_list.length := by
  unfold sgx_reclaim_epc_pages
  by_cases hd : (sgx_isolate_epc_pages O.krefGet st.lru n []).2.dst.isEmpty
  · simpa [hd] using hinv
  · simp only [hd, if_false, Bool.false_eq_true]
    exact reclaim_phase3_preserves_inv _ _ _ _ hinv

/-- C1 (amended): the free counter of a section equals the free-list length
plus the pages not yet successfully sanitized. Concretely: at
initialization the counter equals the (empty) free list plus the
unsanitized list; sanitization never touches the counter and conserves
pages between the free list, the unsanitized list and the local parking
list of EREMOVE failures; when every EREMOVE succeeds the counter equals
the free-list length as soon as sanitization finishes; and that equality is
preserved, in every section, by every allocation, free and reclaim
operation. (The unamended claim, equality already at initialization, is
refuted by free_cnt_ne_free_list_at_init.) -/
theorem epc_free_counter_spec (addr size index : Nat) (er : Nat → Bool)
    (s : EpcSection) (secs : List EpcSection) (p : EpcPage) (O : Oracle)
    (n : Nat) (ia : Bool) (st : KState) :
    ((sgx_setup_epc_section addr size index).free_cnt =
       (sgx_setup_epc_section addr size index).page_list.length +
       (sgx_setup_epc_section addr size index).unsanitized_page_list.length) ∧
    ((sgx_sanitize_section er s).free_cnt = s.free_cnt) ∧
    ((sgx_sanitize_section er s).page_list.length +
       (sgx_sanitize_section er s).unsanitized_page_list.length +
       (sanitize_loop er s.page_list s.unsanitized_page_list []).2.2.length =
     s.page_list.length + s.unsanitized_page_list.length) ∧
    ((∀ a, er a = true) →
     s.free_cnt = s.page_list.length + s.unsanitized_page_list.length →
     (sgx_sanitize_section er s).free_cnt =
       (sgx_sanitize_section er s).page_list.length ∧
     (sgx_sanitize_section er s).unsanitized_page_list = []) ∧
    ((∀ t ∈ secs, t.free_cnt = t.page_list.length) →
     ∀ t ∈ (__sgx_alloc_epc_page secs).2,
       t.free_cnt = t.page_list.length) ∧
    ((∀ t ∈ secs, t.free_cnt = t.page_list.length) →
     ∀ t ∈ (__sgx_free_epc_page secs p).1,
       t.free_cnt = t.page_list.length) ∧
    ((∀ t ∈ st.sections, t.free_cnt = t.page_list.length) →
     ∀ t ∈ (sgx_reclaim_epc_pages O n ia st).2.1.sections,
       t.free_cnt = t.page_list.length) := by
  refine ⟨?_, ?_, ?_, ?_, __sgx_alloc_preserves_inv secs,
    __sgx_free_preserves_inv secs p, sgx_reclaim_preserves_inv O n ia st⟩
  · simp [sgx_setup_epc_section]
  · simp [sgx_sanitize_section]
  · have hc := sanitize_loop_conserves er s.unsanitized_page_list
      s.page_list []
    have h1 : (sgx_sanitize_section er s).page_list =
        (sanitize_loop er s.page_list s.unsanitized_page_list []).1 := rfl
    have h2 : (sgx_sanitize_section er s).unsanitized_page_list =
        (sanitize_loop er s.page_list s.unsanitized_page_list []).2.1 := rfl
    rw [h1, h2]
    simp only [List.length_nil] at hc
    omega
  · intro hall hcnt
    have hrw := sanitize_loop_all_ok er hall s.unsanitized_page_list
      s.page_list []
    have h0 : (sgx_sanitize_section er s).free_cnt = s.free_cnt := rfl
    have h1 : (sgx_sanitize_section er s).page_list =
        (sanitize_loop er s.page_list s.unsanitized_page_list []).1 := rfl
    have h2 : (sgx_sanitize_section er s).unsanitized_page_list =
        (sanitize_loop er s.page_list s.unsanitized_page_list []).2.1 := rfl
    constructor
    · rw [h0, h1, hrw]
      simp only [List.length_append, List.length_reverse]
      omega
    · rw [h2, hrw]

/-- Witness for epc_free_counter_spec: after sanitizing a freshly set up
two-page section with always-succeeding EREMOVE, the counter equals the
free-list length. -/
theorem epc_free_counter_spec_witness :
    (sgx_sanitize_section (fun _ => true)
        (sgx_setup_epc_section 0 8192 0)).free_cnt =
      (sgx_sanitize_section (fun _ => true)
        (sgx_setup_epc_section 0 8192 0)).page_list.length :=
  ((epc_free_counter_spec 0 8192 0 (fun _ => true)
      (sgx_setup_epc_section 0 8192 0) [] ⟨0, 0, false, false, false, false, 0, none⟩
      ⟨fun _ => true, fun _ => true, fun _ => true, fun _ => false⟩
      0 false ⟨[], ⟨[], []⟩⟩).2.2.2.1 (fun _ => rfl) (by decide)).1

lemma isolate_loop_spec (krefGet : Nat → Bool) :
    ∀ (n : Nat) (recl dst dropped : List EpcPage),
      (∀ p ∈ recl, p.enclave = true) →
      ∃ taken drops,
        (isolate_loop krefGet n recl dst dropped).dst = dst ++ taken ∧
        (isolate_loop krefGet n recl dst dropped).dropped =
          dropped ++ drops ∧
        (isolate_loop krefGet n recl dst dropped).reclaimable =
          recl.drop (taken.length + drops.length) ∧
        n = (isolate_loop krefGet n recl dst dropped).nr_to_scan +
            (taken.length + drops.length) ∧
        (∀ q ∈ taken, q.reclaimInProgress = true) ∧
        (∀ q ∈ drops, q.reclaimable = false) := by
  intro n
  induction n with
  | zero =>
    intro recl dst dropped _
    exact ⟨[], [], by simp [isolate_loop], by simp [isolate_loop],
      by simp [isolate_loop], by simp [isolate_loop],
      by simp, by simp⟩
  | succ n ih =>
    intro recl dst dropped hall
    cases recl with
    | nil =>
      exact ⟨[], [], by simp [isolate_loop], by simp [isolate_loop],
        by simp [isolate_loop], by simp [isolate_loop],
        by simp, by simp⟩
    | cons p rest =>
      have hp : p.enclave = true := hall p (List.mem_cons_self p rest)
      by_cases hk : krefGet p.addr
      · have hstep : isolate_loop krefGet (n + 1) (p :: rest) dst dropped =
            isolate_loop krefGet n rest
              (dst ++ [{ p with reclaimInProgress := true }]) dropped := by
          simp [isolate_loop, hp, hk]
        obtain ⟨taken, drops, h1, h2, h3, h4, h5, h6⟩ :=
          ih rest (dst ++ [{ p with reclaimInProgress := true }]) dropped
            (fun q hq => hall q (List.mem_cons_of_mem p hq))
        refine ⟨{ p with reclaimInProgress := true } :: taken, drops,
          ?_, ?_, ?_, ?_, ?_, h6⟩
        · rw [hstep, h1]; simp
        · rw [hstep, h2]
        · rw [hstep, h3]
          simp only [List.length_cons, List.drop_succ_cons]
          rw [Nat.succ_add]
          simp [List.drop_succ_cons]
        · rw [hstep]
          simp only [List.length_cons]
          omega
        · intro q hq
          rcases List.mem_cons.mp hq with h | h
          · rw [h]
          · exact h5 q h
      · have hstep : isolate_loop krefGet (n + 1) (p :: rest) dst dropped =
            isolate_loop krefGet n rest dst
              (dropped ++ [{ p with reclaimable := false }]) := by
          simp [isolate_loop, hp, hk]
        obtain ⟨taken, drops, h1, h2, h3, h4, h5, h6⟩ :=
          ih rest dst (dropped ++ [{ p with reclaimable := false }])
            (fun q hq => hall q (List.mem_cons_of_mem p hq))
        refine ⟨taken, { p with reclaimable := false } :: drops,
          ?_, ?_, ?_, ?_, h5, ?_⟩
        · rw [hstep, h1]
        · rw [hstep, h2]; simp
        · rw [hstep, h3]
          simp only [List.length_cons]
          rw [Nat.add_succ]
          simp [List.drop_succ_cons]
        · rw [hstep]
          simp only [List.length_cons]
          omega
        · intro q hq
          rcases List.mem_cons.mp hq with h | h
          · rw [h]
          · exact h6 q h

/-- C4 (counterexample): want = 2, two reclaimable enclave pages, the
first of which has a disappearing owner (its reference acquisition fails).
sgx_isolate_epc_pages moves one page to dst yet decrements want by two,
once per examined candidate, refuting that want drops exactly by the
number of pages moved to dst. -/
theorem isolate_want_decrement_counterexample :
    ¬ (2 - (sgx_isolate_epc_pages (fun a => a != 4096)
          { reclaimable :=
              [⟨4096, 0, true, false, true, false, 1, none⟩,
               ⟨8192, 0, true, false, true, false, 2, none⟩]
            unreclaimable := [] } 2 []).2.nr_to_scan =
        (sgx_isolate_epc_pages (fun a => a != 4096)
          { reclaimable :=
              [⟨4096, 0, true, false, true, false, 1, none⟩,
               ⟨8192, 0, true, false, true, false, 2, none⟩]
            unreclaimable := [] } 2 []).2.dst.length) := by
  decide

/-- C4 (amended): under the scope lock sgx_isolate_epc_pages moves at most
want pages from the head of the reclaimable list to dst, marking each
moved page RECLAIM_IN_PROGRESS when the owning enclave reference can be
taken and otherwise deleting the candidate from the list with RECLAIMABLE
cleared; and it decrements want by the number of candidates examined -
pages moved to dst plus candidates dropped from the list - which exceeds
the number of moved pages whenever some owner reference fails. (Stated for
candidates carrying the ENCLAVE tag; a candidate without it only burns the
remaining scan budget under a WARN.) -/
theorem sgx_isolate_epc_pages_spec (krefGet : Nat → Bool) (lru : EpcLru)
    (want : Nat) (dst : List EpcPage)
    (hall : ∀ p ∈ lru.reclaimable, p.enclave = true) :
    ∃ taken drops,
      (sgx_isolate_epc_pages krefGet lru want dst).2.dst = dst ++ taken ∧
      (sgx_isolate_epc_pages krefGet lru want dst).2.dropped = drops ∧
      (sgx_isolate_epc_pages krefGet lru want dst).1.reclaimable =
        lru.reclaimable.drop (taken.length + drops.length) ∧
      want = (sgx_isolate_epc_pages krefGet lru want dst).2.nr_to_scan +
             (taken.length + drops.length) ∧
      taken.length ≤ want ∧
      (∀ q ∈ taken, q.reclaimInProgress = true) ∧
      (∀ q ∈ drops, q.reclaimable = false) := by
  obtain ⟨taken, drops, h1, h2, h3, h4, h5, h6⟩ :=
    isolate_loop_spec krefGet want lru.reclaimable dst [] hall
  exact ⟨taken, drops, h1, by simpa using h2, h3, h4, by omega, h5, h6⟩

/-- Witness for sgx_isolate_epc_pages_spec: two enclave pages, both owner
references available, want = 3. -/
theorem sgx_isolate_epc_pages_spec_witness :
    ∃ taken drops,
      (sgx_isolate_epc_pages (fun _ => true)
        { reclaimable :=
            [⟨4096, 0, true, false, true, false, 1, none⟩,
             ⟨8192, 0, true, false, true, false, 2, none⟩]
          unreclaimable := [] } 3 []).2.dst = [] ++ taken ∧
      (sgx_isolate_epc_pages (fun _ => true)
        { reclaimable :=
            [⟨4096, 0, true, false, true, false, 1, none⟩,
             ⟨8192, 0, true, false, true, false, 2, none⟩]
          unreclaimable := [] } 3 []).2.dropped = drops ∧
      (sgx_isolate_epc_pages (fun _ => true)
        { reclaimable :=
            [⟨4096, 0, true, false, true, false, 1, none⟩,
             ⟨8192, 0, true, false, true, false, 2, none⟩]
          unreclaimable := [] } 3 []).1.reclaimable =
        ([⟨4096, 0, true, false, true, false, 1, none⟩,
          ⟨8192, 0, true, false, true, false, 2, none⟩] :
            List EpcPage).drop (taken.length + drops.length) ∧
      3 = (sgx_isolate_epc_pages (fun _ => true)
        { reclaimable :=
            [⟨4096, 0, true, false, true, false, 1, none⟩,
             ⟨8192, 0, true, false, true, false, 2, none⟩]
          unreclaimable := [] } 3 []).2.nr_to_scan +
          (taken.length + drops.length) ∧
      taken.length ≤ 3 ∧
      (∀ q ∈ taken, q.reclaimInProgress = true) ∧
      (∀ q ∈ drops, q.reclaimable = false) :=
  sgx_isolate_epc_pages_spec (fun _ => true)
    { reclaimable :=
        [⟨4096, 0, true, false, true, false, 1, none⟩,
         ⟨8192, 0, true, false, true, false, 2, none⟩]
      unreclaimable := [] } 3 [] (by decide)

lemma sgx_oom_get_victim_none (getRef : Nat → Bool) :
    ∀ l : List EpcPage, (∀ p ∈ l, getRef p.addr = false) →
      sgx_oom_get_victim getRef l = (none, []) := by
  intro l
  induction l with
  | nil => intro _; rfl
  | cons p rest ih =>
    intro h
    have hp := h p (List.mem_cons_self p rest)
    have hstep : sgx_oom_get_victim getRef (p :: rest) =
        sgx_oom_get_victim getRef rest := by
      simp [sgx_oom_get_victim, hp]
    rw [hstep]
    exact ih (fun q hq => h q (List.mem_cons_of_mem p hq))

lemma sgx_oom_get_victim_some (getRef : Nat → Bool) :
    ∀ (l : List EpcPage) (v : EpcPage) (rest : List EpcPage),
      sgx_oom_get_victim getRef l = (some v, rest) →
      ∃ pre, l = pre ++ v :: rest ∧ (∀ p ∈ pre, getRef p.addr = false) ∧
        getRef v.addr = true := by
  intro l
  induction l with
  | nil => intro v rest h; simp [sgx_oom_get_victim] at h
  | cons p r ih =>
    intro v rest h
    cases hp : getRef p.addr with
    | true =>
      simp only [sgx_oom_get_victim, hp, if_true] at h
      have h1 : some p = some v := congrArg Prod.fst h
      have h2 : r = rest := congrArg Prod.snd h
      have hpv : p = v := by injection h1
      subst hpv
      exact ⟨[], by simp [h2], by simp, hp⟩
    | false =>
      have hstep : sgx_oom_get_victim getRef (p :: r) =
          sgx_oom_get_victim getRef r := by
        simp [sgx_oom_get_victim, hp]
      rw [hstep] at h
      obtain ⟨pre, hpre, hall, hv⟩ := ih v rest h
      refine ⟨p :: pre, by simp [hpre], ?_, hv⟩
      intro q hq
      rcases List.mem_cons.mp hq with h1 | h1
      · rw [h1]; exact hp
      · exact hall q h1

lemma sgx_oom_get_victim_some_iff (getRef : Nat → Bool) :
    ∀ l : List EpcPage,
      (∃ v rest, sgx_oom_get_victim getRef l = (some v, rest)) ↔
        ∃ p ∈ l, getRef p.addr = true := by
  intro l
  induction l with
  | nil => simp [sgx_oom_get_victim]
  | cons p r ih =>
    cases hp : getRef p.addr with
    | true =>
      constructor
      · intro _; exact ⟨p, List.mem_cons_self p r, hp⟩
      · intro _
        refine ⟨p, r, ?_⟩
        simp [sgx_oom_get_victim, hp]
    | false =>
      have hstep : sgx_oom_get_victim getRef (p :: r) =
          sgx_oom_get_victim getRef r := by
        simp [sgx_oom_get_victim, hp]
      rw [hstep, ih]
      constructor
      · rintro ⟨q, hq, hgq⟩
        exact ⟨q, List.mem_cons_of_mem p hq, hgq⟩
      · rintro ⟨q, hq, hgq⟩
        rcases List.mem_cons.mp hq with h1 | h1
        · rw [h1] at hgq; rw [hgq] at hp; exact Bool.noConfusion hp
        · exact ⟨q, h1, hgq⟩

lemma sgx_oom_encl_mem (e : Encl) :
    OomEvent.oomFlagSet ∈ sgx_oom_encl e ∧
    (((e.dead || e.oomFlag) = false) → e.created = true →
      (∀ m ∈ e.mms,
         OomEvent.zap m e.base (e.base + e.size) ∈ sgx_oom_encl e) ∧
      OomEvent.destroyed ∈ sgx_oom_encl e) := by
  constructor
  · simp [sgx_oom_encl]
  · intro hdeadoom hcr
    constructor
    · intro m hm
      have hmem : OomEvent.zap m e.base (e.base + e.size) ∈
          e.mms.map (fun mm => OomEvent.zap mm e.base (e.base + e.size)) :=
        List.mem_map.mpr ⟨m, hm, rfl⟩
      have he : sgx_oom_encl e =
          [OomEvent.oomFlagSet] ++
            ((e.mms.map
                (fun mm => OomEvent.zap mm e.base (e.base + e.size)) ++
              [OomEvent.destroyed]) ++ [OomEvent.krefPut]) := by
        simp [sgx_oom_encl, hdeadoom, hcr]
      rw [he]
      exact List.mem_append.mpr (Or.inr (List.mem_append.mpr
        (Or.inl (List.mem_append.mpr (Or.inl hmem)))))
    · simp [sgx_oom_encl, hdeadoom, hcr]

/-- C10: during OOM victim selection every page scanned from the
unreclaimable list is unlinked before its owner reference is tested and a
page whose reference fails is never re-inserted into any list: when a
victim is found the survivors are exactly the unscanned suffix and every
earlier page (all reference failures) is off the list; when no reference
can be acquired, sgx_epc_oom returns false with the entire unreclaimable
list emptied. -/
theorem sgx_oom_victim_scan_spec (getRef : Nat → Bool) (enclOf : Nat → Encl)
    (lru : EpcLru) :
    (∀ v rest,
       sgx_oom_get_victim getRef lru.unreclaimable = (some v, rest) →
       ∃ pre, lru.unreclaimable = pre ++ v :: rest ∧
         (∀ p ∈ pre, getRef p.addr = false) ∧ getRef v.addr = true) ∧
    ((∀ p ∈ lru.unreclaimable, getRef p.addr = false) →
       sgx_oom_get_victim getRef lru.unreclaimable = (none, []) ∧
       sgx_epc_oom getRef enclOf lru =
         (false, { lru with unreclaimable := [] }, [])) := by
  constructor
  · intro v rest h
    exact sgx_oom_get_victim_some getRef _ v rest h
  · intro hfail
    have h0 := sgx_oom_get_victim_none getRef _ hfail
    refine ⟨h0, ?_⟩
    simp [sgx_epc_oom, h0]

/-- Witness for sgx_oom_victim_scan_spec: one unreclaimable page whose
owner reference cannot be taken; the scan empties the list and the OOM
handler reports no victim. -/
theorem sgx_oom_victim_scan_spec_witness :
    sgx_oom_get_victim (fun _ => false)
        ({ reclaimable := []
           unreclaimable := [⟨4096, 0, true, false, false, false, 1, none⟩] }
          : EpcLru).unreclaimable = (none, []) ∧
    sgx_epc_oom (fun _ => false) (fun _ => ⟨false, false, true, [], 0, 0⟩)
        { reclaimable := []
          unreclaimable := [⟨4096, 0, true, false, false, false, 1, none⟩] } =
      (false, { reclaimable := [], unreclaimable := [] }, []) :=
  (sgx_oom_victim_scan_spec (fun _ => false)
      (fun _ => ⟨false, false, true, [], 0, 0⟩)
      { reclaimable := []
        unreclaimable :=
          [⟨4096, 0, true, false, false, false, 1, none⟩] }).2
    (by decide)

/-- C8: sgx_epc_oom returns true exactly when the unreclaimable list of the
scope holds a page whose owner reference can be acquired; for an
enclave-owned or version-array victim the events are those of sgx_oom_encl
on the owning enclave: the OOM flag is set, and unless the enclave was
already dead-or-OOM or was not fully created, every mapping is zapped over
[base, base + size) and the enclave is destroyed. -/
theorem sgx_epc_oom_spec (getRef : Nat → Bool) (enclOf : Nat → Encl)
    (lru : EpcLru) :
    ((sgx_epc_oom getRef enclOf lru).1 = true ↔
       ∃ p ∈ lru.unreclaimable, getRef p.addr = true) ∧
    (∀ v rest,
       sgx_oom_get_victim getRef lru.unreclaimable = (some v, rest) →
       (v.enclave || v.versionArray) = true →
       (sgx_epc_oom getRef enclOf lru).2.2 =
         sgx_oom_encl (enclOf v.owner) ∧
       OomEvent.oomFlagSet ∈ (sgx_epc_oom getRef enclOf lru).2.2 ∧
       ((((enclOf v.owner).dead || (enclOf v.owner).oomFlag) = false) →
        (enclOf v.owner).created = true →
        (∀ m ∈ (enclOf v.owner).mms,
           OomEvent.zap m (enclOf v.owner).base
             ((enclOf v.owner).base + (enclOf v.owner).size) ∈
             (sgx_epc_oom getRef enclOf lru).2.2) ∧
        OomEvent.destroyed ∈ (sgx_epc_oom getRef enclOf lru).2.2)) := by
  constructor
  · constructor
    · intro h
      rcases hv : sgx_oom_get_victim getRef lru.unreclaimable with ⟨o, rest⟩
      cases o with
      | none => simp [sgx_epc_oom, hv] at h
      | some v =>
        exact (sgx_oom_get_victim_some_iff getRef _).mp ⟨v, rest, hv⟩
    · intro h
      obtain ⟨v, rest, hv⟩ := (sgx_oom_get_victim_some_iff getRef _).mpr h
      simp [sgx_epc_oom, hv]
  · intro v rest hv hvt
    have hevs : (sgx_epc_oom getRef enclOf lru).2.2 =
        sgx_oom_encl (enclOf v.owner) := by
      cases henc : v.enclave with
      | true => simp [sgx_epc_oom, hv, henc]
      | false =>
        have hva : v.versionArray = true := by
          rw [henc] at hvt; simpa using hvt
        simp [sgx_epc_oom, hv, henc, hva]
    rw [hevs]
    exact ⟨rfl, (sgx_oom_encl_mem (enclOf v.owner)).1,
      (sgx_oom_encl_mem (enclOf v.owner)).2⟩

/-- Witness for sgx_epc_oom_spec: one reference-acquirable version-array
page owned by a live created enclave with two mappings; the OOM handler
reports a victim, sets the OOM flag, zaps both mappings over the enclave
range and destroys the enclave. -/
theorem sgx_epc_oom_spec_witness :
    (sgx_epc_oom (fun _ => true)
        (fun _ => ⟨false, false, true, [1, 2], 4096, 8192⟩)
        { reclaimable := []
          unreclaimable :=
            [⟨4096, 0, false, true, false, false, 9, none⟩] }).1 = true ∧
    OomEvent.oomFlagSet ∈
      (sgx_epc_oom (fun _ => true)
        (fun _ => ⟨false, false, true, [1, 2], 4096, 8192⟩)
        { reclaimable := []
          unreclaimable :=
            [⟨4096, 0, false, true, false, false, 9, none⟩] }).2.2 ∧
    OomEvent.zap 1 4096 (4096 + 8192) ∈
      (sgx_epc_oom (fun _ => true)
        (fun _ => ⟨false, false, true, [1, 2], 4096, 8192⟩)
        { reclaimable := []
          unreclaimable :=
            [⟨4096, 0, false, true, false, false, 9, none⟩] }).2.2 ∧
    OomEvent.destroyed ∈
      (sgx_epc_oom (fun _ => true)
        (fun _ => ⟨false, false, true, [1, 2], 4096, 8192⟩)
        { reclaimable := []
          unreclaimable :=
            [⟨4096, 0, false, true, false, false, 9, none⟩] }).2.2 := by
  have h := sgx_epc_oom_spec (fun _ => true)
    (fun _ => ⟨false, false, true, [1, 2], 4096, 8192⟩)
    { reclaimable := []
      unreclaimable := [⟨4096, 0, false, true, false, false, 9, none⟩] }
  have h2 := h.2 ⟨4096, 0, false, true, false, false, 9, none⟩ [] (by decide)
    (by decide)
  refine ⟨?_, h2.2.1, ?_, ?_⟩
  · exact h.1.mpr ⟨⟨4096, 0, false, true, false, false, 9, none⟩,
      by decide, rfl⟩
  · exact (h2.2.2 (by decide) (by decide)).1 1 (by decide)
  · exact (h2.2.2 (by decide) (by decide)).2

lemma sgx_encl_ewb_cpumask_mem (mms : List (List Nat)) (c : Nat) :
    c ∈ sgx_encl_ewb_cpumask mms ↔ ∃ m ∈ mms, c ∈ m := by
  have hgen : ∀ (l : List (List Nat)) (acc : List Nat),
      c ∈ l.foldl (fun a m => a ∪ m) acc ↔ c ∈ acc ∨ ∃ m ∈ l, c ∈ m := by
    intro l
    induction l with
    | nil => intro acc; simp
    | cons m r ih =>
      intro acc
      rw [List.foldl_cons, ih (acc ∪ m)]
      constructor
      · rintro (hm | hy)
        · rcases List.mem_union_iff.mp hm with h1 | h1
          · exact Or.inl h1
          · exact Or.inr ⟨m, List.mem_cons_self m r, h1⟩
        · obtain ⟨u, hu, hc⟩ := hy
          exact Or.inr ⟨u, List.mem_cons_of_mem m hu, hc⟩
      · rintro (hacc | ⟨u, hu, hc⟩)
        · exact Or.inl (List.mem_union_iff.mpr (Or.inl hacc))
        · rcases List.mem_cons.mp hu with h1 | h1
          · rw [h1] at hc
            exact Or.inl (List.mem_union_iff.mpr (Or.inr hc))
          · exact Or.inr ⟨u, h1, hc⟩
  rw [sgx_encl_ewb_cpumask, hgen mms []]
  simp

/-- C5: per page, sgx_encl_ewb calls ETRACK at most once and broadcasts at
most one IPI. A first NOT_TRACKED produces exactly writeback, track,
writeback; a second NOT_TRACKED additionally produces the IPI broadcast on
the cpumask computed after ETRACK (the union of the live mapping cpumasks;
the ETRACK event precedes the IPI in the trace) followed by the final
writeback; on a final failure other than NOT_TRACKED the version-array
slot is freed. -/
theorem sgx_encl_ewb_spec (r1 r2 r3 tr : Nat) (mms : List (List Nat)) :
    ((sgx_encl_ewb r1 r2 r3 tr mms).1.count EwbEvent.etrackCall ≤ 1) ∧
    (((sgx_encl_ewb r1 r2 r3 tr mms).1.filter
        (fun e => match e with
          | EwbEvent.ipiBroadcast _ => true
          | _ => false)).length ≤ 1) ∧
    (r1 = SGX_NOT_TRACKED → r2 ≠ SGX_NOT_TRACKED →
      (sgx_encl_ewb r1 r2 r3 tr mms).1 =
        [EwbEvent.ewbCall, EwbEvent.etrackCall, EwbEvent.ewbCall] ++
          (if r2 ≠ 0 then [EwbEvent.vaSlotFreed]
           else [EwbEvent.vaSlotBound]) ∧
      (sgx_encl_ewb r1 r2 r3 tr mms).2 = r2) ∧
    (r1 = SGX_NOT_TRACKED → r2 = SGX_NOT_TRACKED →
      (sgx_encl_ewb r1 r2 r3 tr mms).1 =
        [EwbEvent.ewbCall, EwbEvent.etrackCall, EwbEvent.ewbCall,
         EwbEvent.ipiBroadcast (sgx_encl_ewb_cpumask mms),
         EwbEvent.ewbCall] ++
          (if r3 ≠ 0 then [EwbEvent.vaSlotFreed]
           else [EwbEvent.vaSlotBound]) ∧
      (sgx_encl_ewb r1 r2 r3 tr mms).2 = r3) ∧
    (r1 ≠ SGX_NOT_TRACKED →
      (sgx_encl_ewb r1 r2 r3 tr mms).1 =
        [EwbEvent.ewbCall] ++
          (if r1 ≠ 0 then [EwbEvent.vaSlotFreed]
           else [EwbEvent.vaSlotBound]) ∧
      (sgx_encl_ewb r1 r2 r3 tr mms).2 = r1) ∧
    ((sgx_encl_ewb r1 r2 r3 tr mms).2 ≠ 0 →
     (sgx_encl_ewb r1 r2 r3 tr mms).2 ≠ SGX_NOT_TRACKED →
      EwbEvent.vaSlotFreed ∈ (sgx_encl_ewb r1 r2 r3 tr mms).1) ∧
    (∀ c, c ∈ sgx_encl_ewb_cpumask mms ↔ ∃ m ∈ mms, c ∈ m) := by
  by_cases h1 : r1 = 11
  · by_cases h2 : r2 = 11
    · by_cases h3 : r3 = 0
      · refine ⟨?_, ?_, fun _ hn => absurd h2 hn, fun _ _ => ⟨?_, ?_⟩,
          fun hn => absurd h1 hn, ?_, sgx_encl_ewb_cpumask_mem mms⟩
        all_goals simp [sgx_encl_ewb, SGX_NOT_TRACKED, h1, h2, h3]
      · refine ⟨?_, ?_, fun _ hn => absurd h2 hn, fun _ _ => ⟨?_, ?_⟩,
          fun hn => absurd h1 hn, ?_, sgx_encl_ewb_cpumask_mem mms⟩
        all_goals simp [sgx_encl_ewb, SGX_NOT_TRACKED, h1, h2, h3]
    · by_cases h3 : r2 = 0
      · refine ⟨?_, ?_, fun _ _ => ⟨?_, ?_⟩, fun _ hn => absurd hn h2,
          fun hn => absurd h1 hn, ?_, sgx_encl_ewb_cpumask_mem mms⟩
        all_goals simp [sgx_encl_ewb, SGX_NOT_TRACKED, h1, h2, h3]
      · refine ⟨?_, ?_, fun _ _ => ⟨?_, ?_⟩, fun _ hn => absurd hn h2,
          fun hn => absurd h1 hn, ?_, sgx_encl_ewb_cpumask_mem mms⟩
        all_goals simp [sgx_encl_ewb, SGX_NOT_TRACKED, h1, h2, h3]
  · by_cases h3 : r1 = 0
    · refine ⟨?_, ?_, fun hn _ => absurd hn h1, fun hn _ => absurd hn h1,
        fun _ => ⟨?_, ?_⟩, ?_, sgx_encl_ewb_cpumask_mem mms⟩
      all_goals simp [sgx_encl_ewb, SGX_NOT_TRACKED, h1, h3]
    · refine ⟨?_, ?_, fun hn _ => absurd hn h1, fun hn _ => absurd hn h1,
        fun _ => ⟨?_, ?_⟩, ?_, sgx_encl_ewb_cpumask_mem mms⟩
      all_goals simp [sgx_encl_ewb, SGX_NOT_TRACKED, h1, h3]

/-- Witness for sgx_encl_ewb_spec: both the first and the second writeback
return NOT_TRACKED, the third fails with a fault; the trace is writeback,
track, writeback, IPI on the cpumask union, writeback, and the slot is
freed. -/
theorem sgx_encl_ewb_spec_witness :
    (sgx_encl_ewb 11 11 7 0 [[1], [2]]).1 =
      [EwbEvent.ewbCall, EwbEvent.etrackCall, EwbEvent.ewbCall,
       EwbEvent.ipiBroadcast (sgx_encl_ewb_cpumask [[1], [2]]),
       EwbEvent.ewbCall] ++ [EwbEvent.vaSlotFreed] ∧
    (sgx_encl_ewb 11 11 7 0 [[1], [2]]).2 = 7 := by
  have h := (sgx_encl_ewb_spec 11 11 7 0 [[1], [2]]).2.2.2.1 rfl rfl
  refine ⟨?_, h.2⟩
  rw [h.1]
  norm_num

lemma __sgx_alloc_epc_page_all_empty :
    ∀ secs : List EpcSection, (∀ s ∈ secs, s.page_list = []) →
      __sgx_alloc_epc_page secs = (none, secs) := by
  intro secs
  induction secs with
  | nil => intro _; rfl
  | cons s rest ih =>
    intro h
    have hs : s.page_list = [] := h s (List.mem_cons_self s rest)
    have hstep : __sgx_alloc_epc_page (s :: rest) =
        ((__sgx_alloc_epc_page rest).1,
         s :: (__sgx_alloc_epc_page rest).2) := by
      simp [__sgx_alloc_epc_page, __sgx_alloc_epc_page_from_section, hs]
    rw [hstep, ih (fun u hu => h u (List.mem_cons_of_mem s hu))]

/-- C3: when every section free list is empty, one iteration of the
sgx_alloc_epc_page loop returns -ENOMEM if nothing is reclaimable, else
-EBUSY if reclaim is not allowed, else -ERESTARTSYS if a signal is pending
(with the state untouched, so no writeback was initiated), and otherwise
runs sgx_reclaim_epc_pages(SGX_NR_TO_SCAN = 16, ignore_age = false) and
retries; and whenever the loop returns, the result is a page bound to
owner or one of those three errors. -/
theorem sgx_alloc_epc_page_spec (O : Oracle) (owner : Nat) (reclaim : Bool)
    (fuel iter : Nat) (st : KState)
    (hempty : ∀ s ∈ st.sections, s.page_list = []) :
    (st.lru.reclaimable = [] →
       sgx_alloc_epc_page O owner reclaim (fuel + 1) iter st =
         some (.err (-ENOMEM), st)) ∧
    (st.lru.reclaimable ≠ [] → reclaim = false →
       sgx_alloc_epc_page O owner reclaim (fuel + 1) iter st =
         some (.err (-EBUSY), st)) ∧
    (st.lru.reclaimable ≠ [] → reclaim = true → O.signal iter = true →
       sgx_alloc_epc_page O owner reclaim (fuel + 1) iter st =
         some (.err (-ERESTARTSYS), st)) ∧
    (st.lru.reclaimable ≠ [] → reclaim = true → O.signal iter = false →
       sgx_alloc_epc_page O owner reclaim (fuel + 1) iter st =
         sgx_alloc_epc_page O owner reclaim fuel (iter + 1)
           (sgx_reclaim_epc_pages O SGX_NR_TO_SCAN false st).2.1) ∧
    (∀ (f i : Nat) (st0 : KState) (r : AllocResult) (st2 : KState),
       sgx_alloc_epc_page O owner reclaim f i st0 = some (r, st2) →
       r = .err (-ENOMEM) ∨ r = .err (-EBUSY) ∨ r = .err (-ERESTARTSYS) ∨
       ∃ p, r = .ok p ∧ p.owner = owner) := by
  have halloc := __sgx_alloc_epc_page_all_empty st.sections hempty
  refine ⟨?_, ?_, ?_, ?_, ?_⟩
  · intro hrecl
    simp [sgx_alloc_epc_page, halloc, sgx_can_reclaim, hrecl]
  · intro hrecl hnr
    simp [sgx_alloc_epc_page, halloc, sgx_can_reclaim, hrecl, hnr]
  · intro hrecl hr hsig
    simp [sgx_alloc_epc_page, halloc, sgx_can_reclaim, hrecl, hr, hsig]
  · intro hrecl hr hsig
    simp [sgx_alloc_epc_page, halloc, sgx_can_reclaim, hrecl, hr, hsig]
  · intro f
    induction f with
    | zero =>
      intro i st0 r st2 h
      simp [sgx_alloc_epc_page] at h
    | succ f ihf =>
      intro i st0 r st2 h
      rcases hp : __sgx_alloc_epc_page st0.sections with ⟨op, secs1⟩
      cases op with
      | some p =>
        simp only [sgx_alloc_epc_page, hp] at h
        have h2 := Option.some.injEq .. ▸ h
        have hr : AllocResult.ok { p with owner := owner } = r :=
          congrArg Prod.fst h2
        exact Or.inr (Or.inr (Or.inr
          ⟨{ p with owner := owner }, hr.symm, rfl⟩))
      | none =>
        simp only [sgx_alloc_epc_page, hp] at h
        split_ifs at h with hc hnr hsig
        · have h2 := Option.some.injEq .. ▸ h
          exact Or.inl (congrArg Prod.fst h2).symm
        · have h2 := Option.some.injEq .. ▸ h
          exact Or.inr (Or.inl (congrArg Prod.fst h2).symm)
        · have h2 := Option.some.injEq .. ▸ h
          exact Or.inr (Or.inr (Or.inl (congrArg Prod.fst h2).symm))
        · exact ihf (i + 1) _ r st2 h

/-- Witness for sgx_alloc_epc_page_spec: empty free pool and empty
reclaimable list give -ENOMEM with the state unchanged. -/
theorem sgx_alloc_epc_page_spec_witness :
    sgx_alloc_epc_page
        ⟨fun _ => true, fun _ => true, fun _ => true, fun _ => false⟩
        7 true 1 0
        ⟨[{ page_list := [], unsanitized_page_list := [], free_cnt := 0 }],
         { reclaimable := [], unreclaimable := [] }⟩ =
      some (.err (-ENOMEM),
        ⟨[{ page_list := [], unsanitized_page_list := [], free_cnt := 0 }],
         { reclaimable := [], unreclaimable := [] }⟩) :=
  (sgx_alloc_epc_page_spec
      ⟨fun _ => true, fun _ => true, fun _ => true, fun _ => false⟩
      7 true 0 0
      ⟨[{ page_list := [], unsanitized_page_list := [], free_cnt := 0 }],
       { reclaimable := [], unreclaimable := [] }⟩
      (by decide)).1 rfl

lemma isolate_loop_dst (krefGet : Nat → Bool) :
    ∀ (n : Nat) (recl dst dropped : List EpcPage),
      (∀ q ∈ (isolate_loop krefGet n recl dst dropped).dst,
         q ∈ dst ∨ ∃ p ∈ recl, q.sectionIndex = p.sectionIndex) ∧
      (isolate_loop krefGet n recl dst dropped).dst.length ≤
        dst.length + n := by
  intro n
  induction n with
  | zero =>
    intro recl dst dropped
    exact ⟨fun q hq => Or.inl hq, by simp [isolate_loop]⟩
  | succ n ih =>
    intro recl dst dropped
    cases recl with
    | nil => exact ⟨fun q hq => Or.inl hq, by simp [isolate_loop]⟩
    | cons p rest =>
      cases hpe : p.enclave with
      | false =>
        have hstep : isolate_loop krefGet (n + 1) (p :: rest) dst dropped =
            isolate_loop krefGet n (p :: rest) dst dropped := by
          simp [isolate_loop, hpe]
        rw [hstep]
        exact ⟨(ih (p :: rest) dst dropped).1, by
          have := (ih (p :: rest) dst dropped).2; omega⟩
      | true =>
        by_cases hk : krefGet p.addr
        · have hstep : isolate_loop krefGet (n + 1) (p :: rest) dst dropped =
              isolate_loop krefGet n rest
                (dst ++ [{ p with reclaimInProgress := true }]) dropped := by
            simp [isolate_loop, hpe, hk]
          rw [hstep]
          constructor
          · intro q hq
            rcases (ih rest (dst ++ [{ p with reclaimInProgress := true }])
                dropped).1 q hq with h1 | ⟨u, hu, he⟩
            · rcases List.mem_append.mp h1 with h2 | h2
              · exact Or.inl h2
              · have hq2 : q = { p with reclaimInProgress := true } := by
                  simpa using h2
                refine Or.inr ⟨p, List.mem_cons_self p rest, ?_⟩
                rw [hq2]
            · exact Or.inr ⟨u, List.mem_cons_of_mem p hu, he⟩
          · have := (ih rest (dst ++ [{ p with reclaimInProgress := true }])
              dropped).2
            simp only [List.length_append, List.length_cons,
              List.length_nil] at this
            omega
        · have hstep : isolate_loop krefGet (n + 1) (p :: rest) dst dropped =
              isolate_loop krefGet n rest dst
                (dropped ++ [{ p with reclaimable := false }]) := by
            simp [isolate_loop, hpe, hk]
          rw [hstep]
          constructor
          · intro q hq
            rcases (ih rest dst
                (dropped ++ [{ p with reclaimable := false }])).1 q hq with
              h1 | ⟨u, hu, he⟩
            · exact Or.inl h1
            · exact Or.inr ⟨u, List.mem_cons_of_mem p hu, he⟩
          · have := (ih rest dst
              (dropped ++ [{ p with reclaimable := false }])).2
            omega

lemma reclaim_phase1_spec (O : Oracle) (ia : Bool) :
    ∀ (iso : List EpcPage) (i : Nat) (recl : List EpcPage)
      (puts : List Nat),
      ∃ skipped,
        (reclaim_phase1 O ia iso i recl puts).reclaimable =
          recl ++ skipped ∧
        (∀ q ∈ skipped, q.reclaimInProgress = false ∧
           q.addr ∈ (reclaim_phase1 O ia iso i recl puts).krefPuts) ∧
        (∃ e, (reclaim_phase1 O ia iso i recl puts).krefPuts =
          puts ++ e) ∧
        (∀ q ∈ (reclaim_phase1 O ia iso i recl puts).accepted, q ∈ iso) ∧
        (reclaim_phase1 O ia iso i recl puts).accepted.length ≤
          iso.length := by
  intro iso
  induction iso with
  | nil =>
    intro i recl puts
    exact ⟨[], by simp [reclaim_phase1], by simp, ⟨[], by
      simp [reclaim_phase1]⟩, by simp [reclaim_phase1], by
      simp [reclaim_phase1]⟩
  | cons p rest ih =>
    intro i recl puts
    by_cases hc1 : (i = SGX_MAX_NR_TO_RECLAIM ||
        (!ia && !O.ageOk p.addr)) = true
    · have hstep : reclaim_phase1 O ia (p :: rest) i recl puts =
          reclaim_phase1 O ia rest i
            (recl ++ [{ p with reclaimInProgress := false }])
            (puts ++ [p.addr]) := by
        simp only [reclaim_phase1, hc1, if_true]
      obtain ⟨sk, h1, h2, ⟨e, he⟩, h4, h5⟩ :=
        ih i (recl ++ [{ p with reclaimInProgress := false }])
          (puts ++ [p.addr])
      refine ⟨{ p with reclaimInProgress := false } :: sk, ?_, ?_,
        ⟨[p.addr] ++ e, ?_⟩, ?_, ?_⟩
      · rw [hstep, h1]; simp
      · intro q hq
        rcases List.mem_cons.mp hq with hq1 | hq1
        · rw [hstep]
          refine ⟨by rw [hq1], ?_⟩
          rw [he, hq1]
          simp
        · rw [hstep]; exact h2 q hq1
      · rw [hstep, he]; simp
      · intro q hq
        rw [hstep] at hq
        exact List.mem_cons_of_mem p (h4 q hq)
      · rw [hstep]
        have := h5
        simp only [List.length_cons]
        omega
    · by_cases hc2 : O.backingOk p.addr
      · have hstep : reclaim_phase1 O ia (p :: rest) i recl puts =
            ⟨p :: (reclaim_phase1 O ia rest (i + 1) recl puts).accepted,
             (reclaim_phase1 O ia rest (i + 1) recl puts).reclaimable,
             (reclaim_phase1 O ia rest (i + 1) recl puts).krefPuts⟩ := by
          simp only [reclaim_phase1, hc1, hc2, Bool.not_true, if_false,
            Bool.false_eq_true, Bool.not_false, if_true]
        obtain ⟨sk, h1, h2, ⟨e, he⟩, h4, h5⟩ := ih (i + 1) recl puts
        refine ⟨sk, ?_, ?_, ⟨e, ?_⟩, ?_, ?_⟩
        · rw [hstep]; exact h1
        · intro q hq
          rw [hstep]
          exact h2 q hq
        · rw [hstep]; exact he
        · intro q hq
          rw [hstep] at hq
          rcases List.mem_cons.mp hq with hq1 | hq1
          · rw [hq1]; exact List.mem_cons_self p rest
          · exact List.mem_cons_of_mem p (h4 q hq1)
        · rw [hstep]
          simp only [List.length_cons]
          omega
      · have hstep : reclaim_phase1 O ia (p :: rest) i recl puts =
            reclaim_phase1 O ia rest i
              (recl ++ [{ p with reclaimInProgress := false }])
              (puts ++ [p.addr]) := by
          simp only [reclaim_phase1, hc1, hc2, Bool.not_true, if_false,
            Bool.false_eq_true, Bool.not_false, if_true]
        obtain ⟨sk, h1, h2, ⟨e, he⟩, h4, h5⟩ :=
          ih i (recl ++ [{ p with reclaimInProgress := false }])
            (puts ++ [p.addr])
        refine ⟨{ p with reclaimInProgress := false } :: sk, ?_, ?_,
          ⟨[p.addr] ++ e, ?_⟩, ?_, ?_⟩
        · rw [hstep, h1]; simp
        · intro q hq
          rcases List.mem_cons.mp hq with hq1 | hq1
          · rw [hstep]
            refine ⟨by rw [hq1], ?_⟩
            rw [he, hq1]
            simp
          · rw [hstep]; exact h2 q hq1
        · rw [hstep, he]; simp
        · intro q hq
          rw [hstep] at hq
          exact List.mem_cons_of_mem p (h4 q hq)
        · rw [hstep]
          simp only [List.length_cons]
          omega

lemma map_sum_set (f : EpcSection → Nat) :
    ∀ (secs : List EpcSection) (i : Nat) (s b : EpcSection),
      secs[i]? = some s →
      ((secs.set i b).map f).sum + f s = (secs.map f).sum + f b := by
  intro secs
  induction secs with
  | nil => intro i s b h; simp at h
  | cons a l ih =>
    intro i s b h
    cases i with
    | zero =>
      simp only [List.getElem?_cons_zero, Option.some.injEq] at h
      subst h
      simp only [List.set_cons_zero, List.map_cons, List.sum_cons]
      omega
    | succ j =>
      simp only [List.getElem?_cons_succ] at h
      have := ih j s b h
      simp only [List.set_cons_succ, List.map_cons, List.sum_cons]
      omega

lemma map_sum_set_page (secs : List EpcSection) (i : Nat)
    (s b : EpcSection) (hget : secs[i]? = some s)
    (hb : b.page_list.length = s.page_list.length + 1) :
    ((secs.set i b).map (fun t => t.page_list.length)).sum =
      (secs.map (fun t => t.page_list.length)).sum + 1 := by
  have := map_sum_set (fun t => t.page_list.length) secs i s b hget
  simp only [] at this
  omega

lemma reclaim_free_one_sum (secs : List EpcSection) (p : EpcPage)
    (hidx : p.sectionIndex < secs.length) :
    (reclaim_free_one secs p).length = secs.length ∧
    ((reclaim_free_one secs p).map (fun s => s.page_list.length)).sum =
      (secs.map (fun s => s.page_list.length)).sum + 1 := by
  have hget : secs[p.sectionIndex]? = some secs[p.sectionIndex] :=
    List.getElem?_eq_getElem hidx
  have he : reclaim_free_one secs p =
      secs.set p.sectionIndex
        { secs[p.sectionIndex] with
          page_list := secs[p.sectionIndex].page_list ++
            [{ p with reclaimable := false, reclaimInProgress := false,
                      epc_cg := none }]
          free_cnt := secs[p.sectionIndex].free_cnt + 1 } := by
    simp [reclaim_free_one, hget]
  constructor
  · rw [he]; simp
  · rw [he]
    exact map_sum_set_page secs p.sectionIndex secs[p.sectionIndex] _
      hget (by simp)

lemma reclaim_phase3_spec :
    ∀ (l : List EpcPage) (i : Nat) (secs : List EpcSection)
      (puts : List Nat),
      (∀ p ∈ l, p.sectionIndex < secs.length) →
      (reclaim_phase3 l i secs puts).1 = i + l.length ∧
      (reclaim_phase3 l i secs puts).2.1.length = secs.length ∧
      ((reclaim_phase3 l i secs puts).2.1.map
          (fun s => s.page_list.length)).sum =
        (secs.map (fun s => s.page_list.length)).sum + l.length ∧
      ∃ e, (reclaim_phase3 l i secs puts).2.2 = puts ++ e := by
  intro l
  induction l with
  | nil =>
    intro i secs puts _
    exact ⟨by simp [reclaim_phase3], by simp [reclaim_phase3],
      by simp [reclaim_phase3], ⟨[], by simp [reclaim_phase3]⟩⟩
  | cons p rest ih =>
    intro i secs puts hval
    have hp : p.sectionIndex < secs.length :=
      hval p (List.mem_cons_self p rest)
    have hone := reclaim_free_one_sum secs p hp
    have hval2 : ∀ q ∈ rest, q.sectionIndex <
        (reclaim_free_one secs p).length := by
      intro q hq
      rw [hone.1]
      exact hval q (List.mem_cons_of_mem p hq)
    obtain ⟨h1, h2, h3, ⟨e, he⟩⟩ :=
      ih (i + 1) (reclaim_free_one secs p) (puts ++ [p.addr]) hval2
    have hstep : reclaim_phase3 (p :: rest) i secs puts =
        reclaim_phase3 rest (i + 1) (reclaim_free_one secs p)
          (puts ++ [p.addr]) := by
      simp [reclaim_phase3]
    refine ⟨?_, ?_, ?_, ⟨[p.addr] ++ e, ?_⟩⟩
    · rw [hstep, h1]; simp; omega
    · rw [hstep, h2, hone.1]
    · rw [hstep, h3, hone.2]
      simp only [List.length_cons]
      omega
    · rw [hstep, he]; simp

/-- C6: for n at most SGX_MAX_NR_TO_RECLAIM = 32, sgx_reclaim_epc_pages
returns exactly the number of pages appended to section free lists, which
is at most n; and every isolated page it skips is returned to the tail of
the LRU reclaimable list with RECLAIM_IN_PROGRESS cleared and its owner
reference released (its address appears among the kref_put addresses). -/
theorem sgx_reclaim_epc_pages_spec (O : Oracle) (n : Nat) (ia : Bool)
    (st : KState) (_hn : n ≤ SGX_MAX_NR_TO_RECLAIM)
    (hsec : ∀ p ∈ st.lru.reclaimable,
      p.sectionIndex < st.sections.length) :
    (sgx_reclaim_epc_pages O n ia st).1 ≤ n ∧
    (((sgx_reclaim_epc_pages O n ia st).2.1.sections.map
        (fun s => s.page_list.length)).sum =
      (st.sections.map (fun s => s.page_list.length)).sum +
        (sgx_reclaim_epc_pages O n ia st).1) ∧
    (∃ skipped,
       (sgx_reclaim_epc_pages O n ia st).2.1.lru.reclaimable =
         (sgx_isolate_epc_pages O.krefGet st.lru n []).1.reclaimable ++
           skipped ∧
       ∀ q ∈ skipped, q.reclaimInProgress = false ∧
         q.addr ∈ (sgx_reclaim_epc_pages O n ia st).2.2) := by
  by_cases hd :
      (sgx_isolate_epc_pages O.krefGet st.lru n []).2.dst.isEmpty
  · have he : sgx_reclaim_epc_pages O n ia st =
        (0, { st with lru := (sgx_isolate_epc_pages O.krefGet st.lru n
          []).1 }, []) := by
      simp [sgx_reclaim_epc_pages, hd]
    rw [he]
    exact ⟨Nat.zero_le n, by simp, ⟨[], by simp, by simp⟩⟩
  · have he : sgx_reclaim_epc_pages O n ia st =
        ((reclaim_phase3
            (reclaim_phase1 O ia
              (sgx_isolate_epc_pages O.krefGet st.lru n []).2.dst 0
              (sgx_isolate_epc_pages O.krefGet st.lru n []).1.reclaimable
              []).accepted 0 st.sections
            (reclaim_phase1 O ia
              (sgx_isolate_epc_pages O.krefGet st.lru n []).2.dst 0
              (sgx_isolate_epc_pages O.krefGet st.lru n []).1.reclaimable
              []).krefPuts).1,
         { sections := (reclaim_phase3
            (reclaim_phase1 O ia
              (sgx_isolate_epc_pages O.krefGet st.lru n []).2.dst 0
              (sgx_isolate_epc_pages O.krefGet st.lru n []).1.reclaimable
              []).accepted 0 st.sections
            (reclaim_phase1 O ia
              (sgx_isolate_epc_pages O.krefGet st.lru n []).2.dst 0
              (sgx_isolate_epc_pages O.krefGet st.lru n []).1.reclaimable
              []).krefPuts).2.1
           lru := { (sgx_isolate_epc_pages O.krefGet st.lru n []).1 with
             reclaimable := (reclaim_phase1 O ia
               (sgx_isolate_epc_pages O.krefGet st.lru n []).2.dst 0
               (sgx_isolate_epc_pages O.krefGet st.lru n
                 []).1.reclaimable []).reclaimable } },
         (reclaim_phase3
            (reclaim_phase1 O ia
              (sgx_isolate_epc_pages O.krefGet st.lru n []).2.dst 0
              (sgx_isolate_epc_pages O.krefGet st.lru n []).1.reclaimable
              []).accepted 0 st.sections
            (reclaim_phase1 O ia
              (sgx_isolate_epc_pages O.krefGet st.lru n []).2.dst 0
              (sgx_isolate_epc_pages O.krefGet st.lru n []).1.reclaimable
              []).krefPuts).2.2) := by
      simp [sgx_reclaim_epc_pages, hd]
    obtain ⟨sk, hp1, hp2, ⟨e1, hp3⟩, hp4, hp5⟩ :=
      reclaim_phase1_spec O ia
        (sgx_isolate_epc_pages O.krefGet st.lru n []).2.dst 0
        (sgx_isolate_epc_pages O.krefGet st.lru n []).1.reclaimable []
    have hdst := isolate_loop_dst O.krefGet n st.lru.reclaimable [] []
    have hvalid : ∀ q ∈ (reclaim_phase1 O ia
        (sgx_isolate_epc_pages O.krefGet st.lru n []).2.dst 0
        (sgx_isolate_epc_pages O.krefGet st.lru n []).1.reclaimable
        []).accepted, q.sectionIndex < st.sections.length := by
      intro q hq
      have hq2 := hp4 q hq
      rcases hdst.1 q hq2 with h0 | ⟨u, hu, hidx⟩
      · exact absurd h0 (List.not_mem_nil q)
      · rw [hidx]; exact hsec u hu
    obtain ⟨hc, hlen, hsum, ⟨e2, hext⟩⟩ :=
      reclaim_phase3_spec
        (reclaim_phase1 O ia
          (sgx_isolate_epc_pages O.krefGet st.lru n []).2.dst 0
          (sgx_isolate_epc_pages O.krefGet st.lru n []).1.reclaimable
          []).accepted 0 st.sections
        (reclaim_phase1 O ia
          (sgx_isolate_epc_pages O.krefGet st.lru n []).2.dst 0
          (sgx_isolate_epc_pages O.krefGet st.lru n []).1.reclaimable
          []).krefPuts hvalid
    have hbr : (sgx_isolate_epc_pages O.krefGet st.lru n []).2.dst =
        (isolate_loop O.krefGet n st.lru.reclaimable [] []).dst := rfl
    refine ⟨?_, ?_, ⟨sk, ?_, ?_⟩⟩
    · simp only [he]
      have hb := hdst.2
      rw [← hbr] at hb
      simp only [List.length_nil, Nat.zero_add] at hb hc
      omega
    · simp only [he]
      rw [hsum, hc]
      omega
    · simp only [he]
      exact hp1
    · intro q hq
      refine ⟨(hp2 q hq).1, ?_⟩
      simp only [he]
      rw [hext]
      exact List.mem_append.mpr (Or.inl ((hp2 q hq).2))

/-- Witness for sgx_reclaim_epc_pages_spec: one reclaimable enclave page,
all oracles succeed, n = 2; the reclaimed count, the free-list growth and
the (empty) skipped list fit the theorem. -/
theorem sgx_reclaim_epc_pages_spec_witness :
    (sgx_reclaim_epc_pages
        ⟨fun _ => true, fun _ => true, fun _ => true, fun _ => false⟩
        2 false
        ⟨[{ page_list := [], unsanitized_page_list := [], free_cnt := 0 }],
         { reclaimable := [⟨4096, 0, true, false, true, false, 1, none⟩]
           unreclaimable := [] }⟩).1 ≤ 2 ∧
    (((sgx_reclaim_epc_pages
        ⟨fun _ => true, fun _ => true, fun _ => true, fun _ => false⟩
        2 false
        ⟨[{ page_list := [], unsanitized_page_list := [], free_cnt := 0 }],
         { reclaimable := [⟨4096, 0, true, false, true, false, 1, none⟩]
           unreclaimable := [] }⟩).2.1.sections.map
        (fun s => s.page_list.length)).sum =
      (([{ page_list := [], unsanitized_page_list := [], free_cnt := 0 }] :
          List EpcSection).map (fun s => s.page_list.length)).sum +
        (sgx_reclaim_epc_pages
          ⟨fun _ => true, fun _ => true, fun _ => true, fun _ => false⟩
          2 false
          ⟨[{ page_list := [], unsanitized_page_list := [],
              free_cnt := 0 }],
           { reclaimable := [⟨4096, 0, true, false, true, false, 1, none⟩]
             unreclaimable := [] }⟩).1) ∧
    (∃ skipped,
       (sgx_reclaim_epc_pages
          ⟨fun _ => true, fun _ => true, fun _ => true, fun _ => false⟩
          2 false
          ⟨[{ page_list := [], unsanitized_page_list := [],
              free_cnt := 0 }],
           { reclaimable := [⟨4096, 0, true, false, true, false, 1, none⟩]
             unreclaimable := [] }⟩).2.1.lru.reclaimable =
         (sgx_isolate_epc_pages
            (fun _ => true)
            { reclaimable := [⟨4096, 0, true, false, true, false, 1, none⟩]
              unreclaimable := [] } 2 []).1.reclaimable ++ skipped ∧
       ∀ q ∈ skipped, q.reclaimInProgress = false ∧
         q.addr ∈ (sgx_reclaim_epc_pages
            ⟨fun _ => true, fun _ => true, fun _ => true, fun _ => false⟩
            2 false
            ⟨[{ page_list := [], unsanitized_page_list := [],
                free_cnt := 0 }],
             { reclaimable :=
                 [⟨4096, 0, true, false, true, false, 1, none⟩]
               unreclaimable := [] }⟩).2.2) :=
  sgx_reclaim_epc_pages_spec
    ⟨fun _ => true, fun _ => true, fun _ => true, fun _ => false⟩
    2 false
    ⟨[{ page_list := [], unsanitized_page_list := [], free_cnt := 0 }],
     { reclaimable := [⟨4096, 0, true, false, true, false, 1, none⟩]
       unreclaimable := [] }⟩
    (by decide) (by decide)

end Sgx
